import Mathlib

/-!
Verification of the `erma` RFC 9567 error-reporting agent
(`src/bin/erma/agent.rs`).

A DNS label is modelled as a list of byte values (`List Nat`, each < 256),
and a question name as the list of its labels in wire order, the trailing
root label included, exactly as `ParsedName::iter_labels` yields them.
`parse_qname` and `process_request` below are direct translations of
`AgentService::parse_qname` and `AgentService::process_request`.
-/

deriving instance DecidableEq for Except

namespace Erma

/-- The bytes of the literal label `"_er"` (`_` = 95, `e` = 101, `r` = 114). -/
def erLabel : List Nat := [95, 101, 114]

/-- `u8::to_ascii_lowercase`: map an ASCII uppercase letter to its
lowercase counterpart, leave every other byte unchanged. -/
def toLowerByte (b : Nat) : Nat := if 65 ≤ b ∧ b ≤ 90 then b + 32 else b

/-- The comparison `label == "_er"` of the loop.  The domain crate's
`Label` equality is ASCII-case-insensitive (`eq_ignore_ascii_case` on
the byte slices), so `_ER`, `_Er` and `_eR` also count as the
terminator; since `"_er"` is already lowercase, the test is that the
label lowercases to the bytes of `"_er"`. -/
def isErLabel (l : List Nat) : Bool := l.map toLowerByte = erLabel

/-- One step of Rust's decimal accumulation: `acc * 10 + digit`. -/
def digitStep (acc b : Nat) : Nat := acc * 10 + (b - 48)

/-- The digit loop of Rust's `u16::from_str_radix` at radix 10: consume
decimal digit bytes, failing on a non-digit byte or when the checked
arithmetic would overflow `u16` (value above 65535). -/
def parseDigits (acc : Nat) : List Nat → Option Nat
  | [] => some acc
  | b :: rest =>
    if 48 ≤ b ∧ b ≤ 57 then
      if digitStep acc b ≤ 65535 then parseDigits (digitStep acc b) rest
      else none
    else none

/-- Rust's `u16::from_str` on the bytes of a label: an optional leading
`+` (byte 43) followed by one or more decimal digits, value at most
65535.  The empty string, a lone `+`, any other non-digit byte
(including `-`), and overflow all fail. -/
def parseU16 (bytes : List Nat) : Option Nat :=
  match bytes with
  | [] => none
  | b :: rest =>
    if b = 43 then (if rest = [] then none else parseDigits 0 rest)
    else parseDigits 0 bytes

/-- Wire length of a label sequence: each label costs its length plus one
length byte, as in the DNS wire format. -/
def nameLen (labels : List (List Nat)) : Nat :=
  labels.foldr (fun l acc => l.length + 1 + acc) 0

/-- `NameBuilder::append_label`: fails on a label longer than 63 bytes or
when the built relative name would exceed the maximum name length. -/
def nbAppend (nb : List (List Nat)) (label : List Nat) : Option (List (List Nat)) :=
  if 63 < label.length then none
  else if 254 < nameLen nb + label.length + 1 then none
  else some (nb ++ [label])

/-- The distinct error strings produced by `AgentService::parse_qname`,
one constructor per `ok_or`/`map_err` site:
`"Missing _er label."`, `"Missing QTYPE label."`,
`"Missing QNAME or _er label."`, `"Invalid QNAME label: .."`,
`"Missing EDNS error code label."`, `"Invalid QTYPE label: .."`,
`"Invalid EDNS error code label: .."`. -/
inductive ParseErr where
  | missingEr
  | missingQtype
  | missingQnameOrEr
  | invalidQnameLabel
  | missingEdnsErrorCode
  | invalidQtype
  | invalidErrorCode
deriving DecidableEq, Repr

/-- The `loop` of `parse_qname`: state is the remaining labels, the
name builder, and the `second_last_label` / `last_label` registers.
Each iteration appends `second_last_label` (if set) to the builder,
breaks when `label == "_er"` — the crate's ASCII-case-insensitive label
equality, see `isErLabel` — and otherwise shifts the registers.
Exhausting the labels is the missing-terminator error. -/
def parseLoop : List (List Nat) → List (List Nat) → Option (List Nat) → Option (List Nat) →
    Except ParseErr (List (List Nat) × Option (List Nat))
  | [], _, _, _ => .error .missingQnameOrEr
  | label :: rest, nb, secondLast, lastLab =>
    match (match secondLast with
           | none => some nb
           | some l => nbAppend nb l) with
    | none => .error .invalidQnameLabel
    | some nb2 =>
      if isErLabel label then .ok (nb2, lastLab)
      else parseLoop rest nb2 lastLab (some label)

/-- `AgentService::parse_qname`: skip the first label unchecked, hold the
second as the report QTYPE, run the accumulation loop to the `"_er"`
terminator, take the last pre-terminator label as the EDNS error code,
then parse the two numeric labels as `u16`. -/
def parse_qname (labels : List (List Nat)) :
    Except ParseErr (Nat × Nat × List (List Nat)) :=
  match labels with
  | [] => .error .missingEr
  | _ :: [] => .error .missingQtype
  | _ :: repQtype :: rest =>
    match parseLoop rest [] none none with
    | .error e => .error e
    | .ok (repQname, lastLab) =>
      match lastLab with
      | none => .error .missingEdnsErrorCode
      | some ednsLab =>
        match parseU16 repQtype with
        | none => .error .invalidQtype
        | some qt =>
          match parseU16 ednsLab with
          | none => .error .invalidErrorCode
          | some ec => .ok (qt, ec, repQname)

/-- The guarantees `ParsedName` gives about any question name taken from
the wire: every label is at most 63 bytes and the whole name occupies at
most 255 bytes. -/
def WireValid (labels : List (List Nat)) : Prop :=
  (∀ l ∈ labels, l.length ≤ 63) ∧ nameLen labels ≤ 255

instance (labels : List (List Nat)) : Decidable (WireValid labels) := by
  unfold WireValid; infer_instance

/-- `Rtype::TXT` as a `u16`. -/
def rtypeTXT : Nat := 16

/-- `Class::IN` as a `u16`. -/
def classIN : Nat := 1

/-- `Rcode::NOERROR`. -/
def rcodeNOERROR : Nat := 0

/-- `Rcode::FORMERR`. -/
def rcodeFORMERR : Nat := 1

/-- A DNS question: name and query type. -/
structure Question where
  qname : List (List Nat)
  qtype : Nat
deriving DecidableEq, Repr

/-- An inbound DNS request, reduced to its question section. -/
structure DnsRequest where
  questions : List Question
deriving DecidableEq, Repr

/-- `Message::sole_question`: succeeds exactly when the question section
holds exactly one question. -/
def sole_question (req : DnsRequest) : Option Question :=
  match req.questions with
  | [q] => some q
  | _ => none

/-- One answer resource record: owner name, class, TTL in seconds,
record type, and rdata as a list of character-strings. -/
structure DnsRecord where
  rname : List (List Nat)
  rclass : Nat
  ttl : Nat
  rtype : Nat
  rdata : List (List Nat)
deriving DecidableEq, Repr

/-- The response payload the service hands back: a response code and the
answer section records. -/
structure DnsResponse where
  rcode : Nat
  answers : List DnsRecord
deriving DecidableEq, Repr

/-- The bytes of the TXT payload `"Report received"`. -/
def reportReceived : List Nat := (String.toList "Report received").map Char.toNat

/-- `AgentService::mk_success_response`: NOERROR with one TXT record at
the query name, class IN, `Ttl::from_days(1)` = 86400 seconds, rdata a
single character-string `"Report received"`. -/
def mk_success_response (qname : List (List Nat)) : DnsResponse :=
  { rcode := rcodeNOERROR
    answers := [{ rname := qname, rclass := classIN, ttl := 86400,
                  rtype := rtypeTXT, rdata := [reportReceived] }] }

/-- `AgentService::mk_err_response`: the given rcode, no records. -/
def mk_err_response (rcode : Nat) : DnsResponse :=
  { rcode := rcode, answers := [] }

/-- Observable events of one `process_request` run: the decoder
(`parse_qname`) being invoked, and the callback being invoked. -/
inductive Event where
  | decoderInvoked (qname : List (List Nat))
  | callbackInvoked (repQtype ednsErrCode : Nat) (repQname : List (List Nat))
deriving DecidableEq, Repr

/-- `AgentService::process_request`: require a sole question, of type
TXT, with at least 6 labels; run `parse_qname`; on success invoke the
callback and build the success response; every other path falls through
to a FORMERR response with no records.  The second component records
which of the decoder and the callback were invoked, in order. -/
def process_request (req : DnsRequest) : DnsResponse × List Event :=
  match sole_question req with
  | none => (mk_err_response rcodeFORMERR, [])
  | some q =>
    if q.qtype = rtypeTXT then
      if 6 ≤ q.qname.length then
        match parse_qname q.qname with
        | .error _ => (mk_err_response rcodeFORMERR, [.decoderInvoked q.qname])
        | .ok (qt, ec, nm) =>
          (mk_success_response q.qname,
           [.decoderInvoked q.qname, .callbackInvoked qt ec nm])
      else (mk_err_response rcodeFORMERR, [])
    else (mk_err_response rcodeFORMERR, [])

/-- The `ServiceError` type of the `Service` trait; `AgentService::call`
never produces one. -/
inductive ServiceErr where
  | internalError
  | unimplemented
deriving DecidableEq, Repr

/-- `AgentService::call`: runs `process_request` and always returns
`Ok`, never a `ServiceError`. -/
def call (req : DnsRequest) : Except ServiceErr (DnsResponse × List Event) :=
  .ok (process_request req)

/-- A label made only of ASCII decimal digit bytes (what the claims call
plain ASCII decimal text). -/
def isDecimal (l : List Nat) : Prop := l ≠ [] ∧ ∀ b ∈ l, 48 ≤ b ∧ b ≤ 57

instance (l : List Nat) : Decidable (isDecimal l) := by
  unfold isDecimal; infer_instance

/-- The numeric value of a decimal-digit label. -/
def digitsVal (l : List Nat) : Nat := l.foldl digitStep 0

/-- The list a register of the loop contributes to the pending queue. -/
def optList : Option (List Nat) → List (List Nat)
  | none => []
  | some l => [l]

/-- `nbAppend` folded over a list of labels. -/
def appendAll (nb : List (List Nat)) : List (List Nat) → Option (List (List Nat))
  | [] => some nb
  | l :: rest =>
    match nbAppend nb l with
    | none => none
    | some nb2 => appendAll nb2 rest

theorem nameLen_nil : nameLen [] = 0 := rfl

theorem nameLen_cons (l : List Nat) (ls : List (List Nat)) :
    nameLen (l :: ls) = l.length + 1 + nameLen ls := rfl

theorem nameLen_append (a b : List (List Nat)) :
    nameLen (a ++ b) = nameLen a + nameLen b := by
  induction a with
  | nil => simp [nameLen_nil]
  | cons l ls ih => simp only [List.cons_append, nameLen_cons, ih]; omega

theorem appendAll_ok (ms : List (List Nat)) :
    ∀ nb, (∀ l ∈ ms, l.length ≤ 63) → nameLen nb + nameLen ms ≤ 254 →
    appendAll nb ms = some (nb ++ ms) := by
  induction ms with
  | nil => intro nb _ _; simp [appendAll]
  | cons l rest ih =>
    intro nb hlen htot
    have hl : l.length ≤ 63 := hlen l (List.mem_cons_self l rest)
    have hfit : ¬ 254 < nameLen nb + l.length + 1 := by
      rw [nameLen_cons] at htot; omega
    have happ : nbAppend nb l = some (nb ++ [l]) := by
      simp [nbAppend, Nat.not_lt.mpr hl, hfit]
    simp only [appendAll, happ]
    have := ih (nb ++ [l]) (fun x hx => hlen x (List.mem_cons_of_mem l hx))
      (by rw [nameLen_append, nameLen_cons] at *; simp [nameLen_cons, nameLen_nil] at *; omega)
    rw [this, List.append_assoc]
    rfl

theorem appendAll_eq_of_ok (ms : List (List Nat)) :
    ∀ nb r, appendAll nb ms = some r → r = nb ++ ms := by
  induction ms with
  | nil => intro nb r h; simp [appendAll] at h; simp [h.symm]
  | cons l rest ih =>
    intro nb r h
    simp only [appendAll] at h
    cases happ : nbAppend nb l with
    | none => rw [happ] at h; exact absurd h (by simp)
    | some nb2 =>
      rw [happ] at h
      have hr := ih nb2 r h
      have : nb2 = nb ++ [l] := by
        unfold nbAppend at happ
        by_cases h1 : 63 < l.length
        · simp [h1] at happ
        · by_cases h2 : 254 < nameLen nb + l.length + 1
          · simp [h1, h2] at happ
          · simp [h1, h2] at happ; exact happ.symm
      rw [hr, this, List.append_assoc]
      rfl

/-- Closed form of the accumulation loop when a terminator — any label
the program's case-insensitive comparison equates with `"_er"` — is
present: with pending queue `Q = optList sl ++ optList ll ++ ys`, the
loop appends all but the last element of `Q` and returns the last
element of `Q` as the candidate error-code label.  Nothing after the
first terminator is read. -/
theorem parseLoop_closed (ys : List (List Nat)) :
    ∀ t suffix nb sl ll, isErLabel t = true → (∀ y ∈ ys, isErLabel y = false) →
    (sl.isSome → ll.isSome) →
    parseLoop (ys ++ t :: suffix) nb sl ll =
      match appendAll nb ((optList sl ++ optList ll ++ ys).dropLast) with
      | none => .error .invalidQnameLabel
      | some nb2 => .ok (nb2, (optList sl ++ optList ll ++ ys).getLast?) := by
  induction ys with
  | nil =>
    intro t suffix nb sl ll ht _ hinv
    cases sl with
    | none =>
      cases ll with
      | none => simp [parseLoop, optList, appendAll, ht]
      | some l => simp [parseLoop, optList, appendAll, ht]
    | some s =>
      cases ll with
      | none => exact absurd (hinv rfl) (by simp)
      | some l =>
        simp only [parseLoop, optList, List.nil_append, List.append_nil, List.cons_append]
        cases happ : nbAppend nb s with
        | none => simp [happ, appendAll, List.dropLast]
        | some nb2 => simp [happ, appendAll, List.dropLast, ht]
  | cons y ys ih =>
    intro t suffix nb sl ll ht hys hinv
    have hy : isErLabel y = false := hys y (List.mem_cons_self y ys)
    have hys2 : ∀ z ∈ ys, isErLabel z = false := fun z hz => hys z (List.mem_cons_of_mem y hz)
    cases sl with
    | none =>
      have hstep : parseLoop ((y :: ys) ++ t :: suffix) nb none ll
          = parseLoop (ys ++ t :: suffix) nb ll (some y) := by
        simp [parseLoop, hy]
      rw [hstep, ih t suffix nb ll (some y) ht hys2 (by simp)]
      cases ll with
      | none => simp [optList]
      | some l => simp [optList]
    | some s =>
      cases ll with
      | none => exact absurd (hinv rfl) (by simp)
      | some l =>
        cases happ : nbAppend nb s with
        | none =>
          have hstep : parseLoop ((y :: ys) ++ t :: suffix) nb (some s) (some l)
              = .error .invalidQnameLabel := by
            simp [parseLoop, happ]
          rw [hstep]
          simp [optList, appendAll, happ, List.dropLast]
        | some nb2 =>
          have hstep : parseLoop ((y :: ys) ++ t :: suffix) nb (some s) (some l)
              = parseLoop (ys ++ t :: suffix) nb2 (some l) (some y) := by
            simp [parseLoop, happ, hy]
          rw [hstep, ih t suffix nb2 (some l) (some y) ht hys2 (by simp)]
          simp [optList, appendAll, happ, List.dropLast, List.getLast?_cons_cons]

/-- When no label of the remaining input passes the case-insensitive
terminator test, the loop runs out of labels and fails with the
missing-terminator error, provided the wire-length bounds keep every
intermediate append within the builder's limits. -/
theorem parseLoop_exhaust (ys : List (List Nat)) :
    ∀ nb sl ll, (∀ y ∈ ys, isErLabel y = false) →
    (∀ y ∈ (optList sl ++ optList ll ++ ys), y.length ≤ 63) →
    nameLen nb + nameLen (optList sl ++ optList ll ++ ys) ≤ 254 →
    parseLoop ys nb sl ll = .error .missingQnameOrEr := by
  induction ys with
  | nil => intro nb sl ll _ _ _; rfl
  | cons y ys ih =>
    intro nb sl ll hys hlen htot
    have hy : isErLabel y = false := hys y (List.mem_cons_self y ys)
    have hys2 : ∀ z ∈ ys, isErLabel z = false := fun z hz => hys z (List.mem_cons_of_mem y hz)
    have hlen2 : ∀ z ∈ (optList ll ++ optList (some y) ++ ys), z.length ≤ 63 := by
      intro z hz
      apply hlen
      cases ll <;> simp [optList] at hz ⊢ <;> tauto
    cases sl with
    | none =>
      have hstep : parseLoop (y :: ys) nb none ll = parseLoop ys nb ll (some y) := by
        simp [parseLoop, hy]
      rw [hstep]
      refine ih nb ll (some y) hys2 hlen2 ?h1
      simp only [optList, nameLen_append, nameLen_cons, nameLen_nil] at htot ⊢
      omega
    | some s =>
      have hs : s.length ≤ 63 := hlen s (by simp [optList])
      have hsfit : ¬ 254 < nameLen nb + s.length + 1 := by
        simp only [optList, nameLen_append, nameLen_cons, nameLen_nil] at htot
        omega
      have happ : nbAppend nb s = some (nb ++ [s]) := by
        simp [nbAppend, Nat.not_lt.mpr hs, hsfit]
      have hstep : parseLoop (y :: ys) nb (some s) ll = parseLoop ys (nb ++ [s]) ll (some y) := by
        simp [parseLoop, happ, hy]
      rw [hstep]
      refine ih (nb ++ [s]) ll (some y) hys2 hlen2 ?h2
      simp only [optList, nameLen_append, nameLen_cons, nameLen_nil] at htot ⊢
      omega

theorem foldl_digitStep_le (l : List Nat) :
    ∀ acc, acc ≤ List.foldl digitStep acc l := by
  induction l with
  | nil => intro acc; simp
  | cons b rest ih =>
    intro acc
    rw [List.foldl_cons]
    exact le_trans (by unfold digitStep; omega) (ih (digitStep acc b))

theorem parseDigits_eq (l : List Nat) :
    ∀ acc, (∀ b ∈ l, 48 ≤ b ∧ b ≤ 57) → List.foldl digitStep acc l ≤ 65535 →
    parseDigits acc l = some (List.foldl digitStep acc l) := by
  induction l with
  | nil => intro acc _ _; simp [parseDigits]
  | cons b rest ih =>
    intro acc hd hv
    have hb : 48 ≤ b ∧ b ≤ 57 := hd b (List.mem_cons_self b rest)
    rw [List.foldl_cons] at hv ⊢
    have hstep : digitStep acc b ≤ 65535 :=
      le_trans (foldl_digitStep_le rest (digitStep acc b)) hv
    have hred : parseDigits acc (b :: rest) = parseDigits (digitStep acc b) rest := by
      simp [parseDigits, hb.1, hb.2, hstep]
    rw [hred]
    exact ih (digitStep acc b) (fun x hx => hd x (List.mem_cons_of_mem b hx)) hv

/-- A label of plain decimal digits with value at most 65535 is accepted
by the `u16` parser and yields its decimal value. -/
theorem parseU16_of_isDecimal (l : List Nat) (h : isDecimal l) (hv : digitsVal l ≤ 65535) :
    parseU16 l = some (digitsVal l) := by
  obtain ⟨hne, hd⟩ := h
  cases l with
  | nil => exact absurd rfl hne
  | cons b rest =>
    have hb : 48 ≤ b ∧ b ≤ 57 := hd b (List.mem_cons_self b rest)
    have hb43 : ¬ b = 43 := by omega
    simp only [parseU16, if_neg hb43]
    simpa [digitsVal] using parseDigits_eq (b :: rest) 0 hd (by simpa [digitsVal] using hv)

/-- On a grammatically shaped name — labels strictly between the QTYPE
label and the first terminator (any case variant of `"_er"`) being
`mid ++ [ec]` — the decoder reduces to the builder run over `mid`
followed by the two numeric parses. -/
theorem parse_qname_shape (a b ec t : List Nat) (mid suffix : List (List Nat))
    (hmid : ∀ l ∈ mid, isErLabel l = false) (hec : isErLabel ec = false)
    (ht : isErLabel t = true) :
    parse_qname (a :: b :: (mid ++ [ec] ++ t :: suffix)) =
      match appendAll [] mid with
      | none => .error .invalidQnameLabel
      | some nm =>
        match parseU16 b with
        | none => .error .invalidQtype
        | some qt =>
          match parseU16 ec with
          | none => .error .invalidErrorCode
          | some e => .ok (qt, e, nm) := by
  have hys : ∀ y ∈ (mid ++ [ec]), isErLabel y = false := by
    intro y hy
    rcases List.mem_append.mp hy with h | h
    · exact hmid y h
    · rw [List.mem_singleton] at h; rw [h]; exact hec
  have hloop := parseLoop_closed (mid ++ [ec]) t suffix [] none none ht hys (by simp)
  simp only [optList, List.nil_append, List.dropLast_concat, List.getLast?_concat] at hloop
  simp only [parse_qname]
  rw [hloop]
  cases happ : appendAll [] mid with
  | none => simp
  | some nm =>
    cases hqt : parseU16 b with
    | none => simp
    | some qt =>
      cases hece : parseU16 ec with
      | none => simp [hece]
      | some e => simp [hece]

/-- On a wire-valid name the builder never overflows: the labels strictly
before the error-code label all fit. -/
theorem appendAll_mid_ok (first qt ec t : List Nat) (mid suffix : List (List Nat))
    (hwire : WireValid (first :: qt :: (mid ++ [ec] ++ t :: suffix))) :
    appendAll [] mid = some mid := by
  have h := appendAll_ok mid []
    (fun l hl => hwire.1 l (by
      simp only [List.mem_cons, List.mem_append, List.mem_singleton]
      tauto))
    (by
      have h2 := hwire.2
      simp only [nameLen_cons, nameLen_append, nameLen_nil] at h2 ⊢
      omega)
  simpa using h

/-- Inversion of the loop: a successful run means a terminator — some
label passing the case-insensitive test — was present, preceded only by
non-terminator labels. -/
theorem parseLoop_ok_inv (zs : List (List Nat)) :
    ∀ nb sl ll nb2 lastLab, parseLoop zs nb sl ll = .ok (nb2, lastLab) →
    ∃ ys t suffix, zs = ys ++ t :: suffix ∧ (∀ y ∈ ys, isErLabel y = false) ∧
      isErLabel t = true := by
  induction zs with
  | nil => intro nb sl ll nb2 lastLab h; exact absurd h (by simp [parseLoop])
  | cons z zs ih =>
    intro nb sl ll nb2 lastLab h
    cases hz : isErLabel z with
    | true => exact ⟨[], z, zs, rfl, by simp, hz⟩
    | false =>
      simp only [parseLoop] at h
      cases hstep : (match sl with | none => some nb | some l => nbAppend nb l) with
      | none => rw [hstep] at h; exact absurd h (by simp)
      | some nbx =>
        rw [hstep] at h
        have hz2 : ¬ (isErLabel z = true) := by simp [hz]
        simp only [if_neg hz2] at h
        obtain ⟨ys, t, suffix, heq, hys, ht⟩ := ih nbx ll (some z) nb2 lastLab h
        refine ⟨z :: ys, t, suffix, by rw [heq]; rfl, ?_, ht⟩
        intro y hy
        rcases List.mem_cons.mp hy with h1 | h1
        · rw [h1]; exact hz
        · exact hys y h1

/-- `process_request` on a sole TXT question whose name fails to decode:
FORMERR, and the decoder was invoked exactly when the label-count guard
passed. -/
theorem process_request_parse_err (L : List (List Nat)) (e : ParseErr)
    (hp : parse_qname L = .error e) :
    process_request { questions := [{ qname := L, qtype := rtypeTXT }] }
      = (mk_err_response rcodeFORMERR,
         if 6 ≤ L.length then [.decoderInvoked L] else []) := by
  by_cases h6 : 6 ≤ L.length <;> simp [process_request, sole_question, h6, hp]

/-- The question name `_er.1.com.23._er.a.` (scenario: QTYPE 1 = A,
EDNS error code 23, original name `com`), root label included. -/
def goodQname : List (List Nat) :=
  [erLabel, [49], [99, 111, 109], [50, 51], erLabel, [97], []]

/-- The question name `_er.+1.com.23._er.a.` whose QTYPE label `"+1"`
carries a leading plus sign. -/
def plusQname : List (List Nat) :=
  [erLabel, [43, 49], [99, 111, 109], [50, 51], erLabel, [97], []]

/-- The question name `_er.1.23._er.a.`: the error-code label `"23"`
immediately follows the QTYPE label `"1"`, so the original-query-name
segment is empty. -/
def adjacentQname : List (List Nat) := [erLabel, [49], [50, 51], erLabel, [97], []]

/-- The root question name `.`: a single empty label. -/
def rootQname : List (List Nat) := [[]]

/-- **C1.** For every question name whose labels are
`[first, qtype-label, l1, .., lk, errcode-label, "_er", agent-labels..]`
with `k ≥ 1`, no `li` equal to `"_er"` under the program's
case-insensitive label equality, the errcode label likewise not
`"_er"`, and the qtype and errcode labels ASCII decimal text of value
at most 65535, the decoder succeeds and returns
`(qtype, errcode, [l1..lk])` with the original-name labels in the same
left-to-right order as on the wire; the first label is quantified over
arbitrarily, so its value is not checked and does not affect the
result. -/
theorem C1_wellformed_decode (first qt ec : List Nat) (mid suffix : List (List Nat))
    (hwire : WireValid (first :: qt :: (mid ++ [ec] ++ erLabel :: suffix)))
    (_hk : mid ≠ [])
    (hmid : ∀ l ∈ mid, isErLabel l = false) (hec : isErLabel ec = false)
    (hqt : isDecimal qt) (hqtv : digitsVal qt ≤ 65535)
    (hecd : isDecimal ec) (hecv : digitsVal ec ≤ 65535) :
    parse_qname (first :: qt :: (mid ++ [ec] ++ erLabel :: suffix)) =
      .ok (digitsVal qt, digitsVal ec, mid) := by
  rw [parse_qname_shape first qt ec erLabel mid suffix hmid hec (by decide),
    appendAll_mid_ok first qt ec erLabel mid suffix hwire,
    parseU16_of_isDecimal qt hqt hqtv, parseU16_of_isDecimal ec hecd hecv]

/-- Witness for C1: the name `_er.1.example-x.com-ish.23._er.a.` in
byte form, end-to-end scenario 1 of the spec. -/
theorem C1_wellformed_decode_witness :
    parse_qname ([95, 101, 114] :: [49] ::
        ([[101, 120], [99, 111, 109]] ++ [[50, 51]] ++ erLabel :: [[97], []])) =
      .ok (digitsVal [49], digitsVal [50, 51], [[101, 120], [99, 111, 109]]) :=
  C1_wellformed_decode [95, 101, 114] [49] [50, 51] [[101, 120], [99, 111, 109]] [[97], []]
    (by decide) (by decide) (by decide) (by decide) (by decide) (by decide) (by decide) (by decide)

/-- **C2 counterexample.** The claim says any input whose qtype label is
not plain ASCII decimal text — explicitly including text carrying a
leading sign — fails to decode and draws FORMERR.  But Rust's
`u16::from_str` accepts an optional leading `+`, so the name
`_er.+1.com.23._er.a.` decodes successfully and the responder answers
NOERROR. -/
theorem C2_leading_plus_cex :
    parse_qname plusQname = .ok (1, 23, [[99, 111, 109]]) ∧
    (process_request { questions := [{ qname := plusQname, qtype := rtypeTXT }] }).1.rcode
      = rcodeNOERROR := by
  constructor <;> decide

/-- **C2 amended.** For every grammatically shaped input — no label
before the `"_er"` terminator matching `"_er"` case-insensitively —
whose qtype or error-code label is rejected by Rust's `u16` parser
(non-numeric text, a leading minus sign, empty text, a lone plus, or a
value above 65535 — but not a leading plus followed by in-range digits,
which the parser accepts), decoding fails with the invalid-qtype
respectively invalid-error-code error, and the responder returns
FORMERR. -/
theorem C2_numeric_reject (first qt ec : List Nat) (mid suffix : List (List Nat))
    (hwire : WireValid (first :: qt :: (mid ++ [ec] ++ erLabel :: suffix)))
    (hmid : ∀ l ∈ mid, isErLabel l = false) (hec : isErLabel ec = false)
    (hbad : parseU16 qt = none ∨ parseU16 ec = none) :
    (parseU16 qt = none →
      parse_qname (first :: qt :: (mid ++ [ec] ++ erLabel :: suffix)) = .error .invalidQtype) ∧
    (parseU16 qt ≠ none →
      parse_qname (first :: qt :: (mid ++ [ec] ++ erLabel :: suffix)) = .error .invalidErrorCode) ∧
    (process_request { questions :=
        [{ qname := first :: qt :: (mid ++ [ec] ++ erLabel :: suffix), qtype := rtypeTXT }] }).1
      = mk_err_response rcodeFORMERR := by
  have hshape := parse_qname_shape first qt ec erLabel mid suffix hmid hec (by decide)
  have happ := appendAll_mid_ok first qt ec erLabel mid suffix hwire
  rw [happ] at hshape
  have hq1 : parseU16 qt = none →
      parse_qname (first :: qt :: (mid ++ [ec] ++ erLabel :: suffix)) = .error .invalidQtype := by
    intro h; rw [hshape, h]
  have hq2 : parseU16 qt ≠ none →
      parse_qname (first :: qt :: (mid ++ [ec] ++ erLabel :: suffix)) = .error .invalidErrorCode := by
    intro hne
    cases hq : parseU16 qt with
    | none => exact absurd hq hne
    | some v =>
      rcases hbad with h | h
      · exact absurd h (by rw [hq]; simp)
      · rw [hshape, hq, h]
  refine ⟨hq1, hq2, ?_⟩
  have hfail : ∃ e, parse_qname (first :: qt :: (mid ++ [ec] ++ erLabel :: suffix)) = .error e := by
    cases hq : parseU16 qt with
    | none => exact ⟨.invalidQtype, hq1 hq⟩
    | some v => exact ⟨.invalidErrorCode, hq2 (by rw [hq]; simp)⟩
  obtain ⟨e, he⟩ := hfail
  rw [process_request_parse_err _ e he]

/-- Witness for C2 amended: non-numeric qtype label `"xyz"`
(end-to-end scenario 3 of the spec). -/
theorem C2_numeric_reject_witness :
    (parseU16 [120, 121, 122] = none →
      parse_qname ([95, 101, 114] :: [120, 121, 122] ::
        ([[99, 111, 109]] ++ [[50, 51]] ++ erLabel :: [[97], []])) = .error .invalidQtype) ∧
    (parseU16 [120, 121, 122] ≠ none →
      parse_qname ([95, 101, 114] :: [120, 121, 122] ::
        ([[99, 111, 109]] ++ [[50, 51]] ++ erLabel :: [[97], []])) = .error .invalidErrorCode) ∧
    (process_request { questions :=
        [{ qname := [95, 101, 114] :: [120, 121, 122] ::
            ([[99, 111, 109]] ++ [[50, 51]] ++ erLabel :: [[97], []]), qtype := rtypeTXT }] }).1
      = mk_err_response rcodeFORMERR :=
  C2_numeric_reject [95, 101, 114] [120, 121, 122] [50, 51] [[99, 111, 109]] [[97], []]
    (by decide) (by decide) (by decide) (by decide)

/-- **C3 counterexample.** The claim says every decoder success has at
least one label strictly between the qtype label and the error-code
label.  On `_er.1.23._er.a.` the decoder succeeds with an empty
original-query-name: the error-code label `"23"` directly follows the
qtype label `"1"`. -/
theorem C3_empty_qname_cex : parse_qname adjacentQname = .ok (1, 23, []) := by decide

/-- **C3 amended.** For every question name on which the decoder
succeeds there is at least one label strictly between the qtype label
and the terminator — the first label after the second matching `"_er"`
case-insensitively — whose last such label is taken as the error-code
label, and the reconstructed original name consists of the labels
before it, which may be none. -/
theorem C3_success_shape (labels : List (List Nat)) (q e : Nat) (nm : List (List Nat))
    (h : parse_qname labels = .ok (q, e, nm)) :
    ∃ a b ys t suffix, labels = a :: b :: (ys ++ t :: suffix) ∧
      (∀ y ∈ ys, isErLabel y = false) ∧ isErLabel t = true ∧
      ys ≠ [] ∧ nm = ys.dropLast := by
  match labels with
  | [] => exact absurd h (by simp [parse_qname])
  | [a] => exact absurd h (by simp [parse_qname])
  | a :: b :: rest =>
    simp only [parse_qname] at h
    cases hloop : parseLoop rest [] none none with
    | error e2 => rw [hloop] at h; exact absurd h (by simp)
    | ok p =>
      obtain ⟨nbv, lastLab⟩ := p
      rw [hloop] at h
      obtain ⟨ys, t, suffix, heq, hys, ht⟩ :=
        parseLoop_ok_inv rest [] none none nbv lastLab hloop
      subst heq
      have hclosed := parseLoop_closed ys t suffix [] none none ht hys (by simp)
      simp only [optList, List.nil_append] at hclosed
      rw [hclosed] at hloop
      cases happ : appendAll [] ys.dropLast with
      | none => rw [happ] at hloop; exact absurd hloop (by simp)
      | some nb2 =>
        rw [happ] at hloop
        simp only [Except.ok.injEq, Prod.mk.injEq] at hloop
        obtain ⟨hnb, hlast⟩ := hloop
        rw [← hlast] at h
        cases hlastv : ys.getLast? with
        | none => rw [hlastv] at h; simp at h
        | some ecl =>
          rw [hlastv] at h
          simp only [] at h
          have hne : ys ≠ [] := by
            intro hnil; rw [hnil] at hlastv; simp at hlastv
          cases hqt : parseU16 b with
          | none => rw [hqt] at h; simp at h
          | some qv =>
            rw [hqt] at h
            simp only [] at h
            cases hecp : parseU16 ecl with
            | none => rw [hecp] at h; simp at h
            | some ev =>
              rw [hecp] at h
              simp only [Except.ok.injEq, Prod.mk.injEq] at h
              refine ⟨a, b, ys, t, suffix, rfl, hys, ht, hne, ?_⟩
              rw [← h.2.2, ← hnb]
              exact (appendAll_eq_of_ok ys.dropLast [] nb2 happ).trans (by simp)

/-- Witness for C3 amended, at the empty-original-name success input. -/
theorem C3_success_shape_witness :
    ∃ a b ys t suffix, adjacentQname = a :: b :: (ys ++ t :: suffix) ∧
      (∀ y ∈ ys, isErLabel y = false) ∧ isErLabel t = true ∧
      ys ≠ [] ∧ ([] : List (List Nat)) = ys.dropLast :=
  C3_success_shape adjacentQname 1 23 [] (by decide)

/-- The structural-rejection conditions of `process_request`: not
exactly one question, non-TXT query type, fewer than 6 labels, or a
decoder failure. -/
def structurallyRejected (req : DnsRequest) : Prop :=
  match sole_question req with
  | none => True
  | some q => q.qtype ≠ rtypeTXT ∨ q.qname.length < 6 ∨ ∃ e, parse_qname q.qname = .error e

/-- The callback invocations recorded in an event trace. -/
def callbackEvents (evts : List Event) : List (Nat × Nat × List (List Nat)) :=
  evts.filterMap (fun ev => match ev with
    | .callbackInvoked a b c => some (a, b, c)
    | _ => none)

/-- **C4.** Every inbound request yields a completed response — `call`
returns `Ok`, never a `ServiceError` — and every structurally rejected
request yields a FORMERR response with no answer records. -/
theorem C4_total_formerr (req : DnsRequest) :
    call req = .ok (process_request req) ∧
    (structurallyRejected req →
      (process_request req).1.rcode = rcodeFORMERR ∧ (process_request req).1.answers = []) := by
  refine ⟨rfl, ?_⟩
  intro hrej
  unfold structurallyRejected at hrej
  cases hq : sole_question req with
  | none => simp [process_request, hq, mk_err_response]
  | some q =>
    rw [hq] at hrej
    by_cases ht : q.qtype = rtypeTXT
    · by_cases h6 : 6 ≤ q.qname.length
      · rcases hrej with h | h | ⟨e, he⟩
        · exact absurd ht h
        · omega
        · simp [process_request, hq, ht, h6, he, mk_err_response]
      · simp [process_request, hq, ht, h6, mk_err_response]
    · simp [process_request, hq, ht, mk_err_response]

/-- Witness for C4 at the empty request (QDCOUNT = 0). -/
theorem C4_total_formerr_witness :
    call { questions := [] } = .ok (process_request { questions := [] }) ∧
    ((process_request { questions := [] }).1.rcode = rcodeFORMERR ∧
      (process_request { questions := [] }).1.answers = []) :=
  ⟨(C4_total_formerr { questions := [] }).1,
   (C4_total_formerr { questions := [] }).2 (by simp [structurallyRejected, sole_question])⟩

/-- **C5.** A request whose sole question name has fewer than 6 labels
draws FORMERR and leaves the event trace empty: the decoder is never
invoked. -/
theorem C5_few_labels (req : DnsRequest) (q : Question)
    (hq : sole_question req = some q) (h6 : q.qname.length < 6) :
    (process_request req).1 = mk_err_response rcodeFORMERR ∧
    (process_request req).2 = [] := by
  have h6n : ¬ 6 ≤ q.qname.length := by omega
  by_cases ht : q.qtype = rtypeTXT <;> simp [process_request, hq, ht, h6n]

/-- Witness for C5 at a 1-label (root) question name. -/
theorem C5_few_labels_witness :
    (process_request { questions := [{ qname := rootQname, qtype := rtypeTXT }] }).1
      = mk_err_response rcodeFORMERR ∧
    (process_request { questions := [{ qname := rootQname, qtype := rtypeTXT }] }).2 = [] :=
  C5_few_labels _ _ rfl (by decide)

/-- **C6.** A request whose sole question is not of type TXT draws
FORMERR and the callback is never invoked. -/
theorem C6_non_txt (req : DnsRequest) (q : Question)
    (hq : sole_question req = some q) (ht : q.qtype ≠ rtypeTXT) :
    (process_request req).1 = mk_err_response rcodeFORMERR ∧
    callbackEvents (process_request req).2 = [] := by
  simp [process_request, hq, ht, callbackEvents]

/-- Witness for C6 at an A-type (qtype 1) query. -/
theorem C6_non_txt_witness :
    (process_request { questions := [{ qname := goodQname, qtype := 1 }] }).1
      = mk_err_response rcodeFORMERR ∧
    callbackEvents (process_request { questions := [{ qname := goodQname, qtype := 1 }] }).2
      = [] :=
  C6_non_txt _ _ rfl (by decide)

/-- **C7 counterexample.** The claim covers every question name in which
no label after the second equals `"_er"`; the root name `.` (one empty
label) is such a name, yet the decoder fails on it with the
missing-QTYPE error, not the missing-terminator error.  (The responder
still returns FORMERR.) -/
theorem C7_short_name_cex :
    parse_qname rootQname = .error .missingQtype ∧
    parse_qname rootQname ≠ .error .missingQnameOrEr := by
  constructor <;> decide

/-- **C7 amended.** For every question name with at least two labels in
which no label after the second equals `"_er"` under the program's
case-insensitive label equality, decoding fails with the
missing-terminator error (labels exhausted before a terminator was
found) and the responder returns FORMERR; names with fewer labels fail
with the missing-marker or missing-QTYPE error instead and draw the same
FORMERR. -/
theorem C7_missing_terminator (a b : List Nat) (rest : List (List Nat))
    (hwire : WireValid (a :: b :: rest))
    (hrest : ∀ l ∈ rest, isErLabel l = false) :
    parse_qname (a :: b :: rest) = .error .missingQnameOrEr ∧
    (process_request { questions := [{ qname := a :: b :: rest, qtype := rtypeTXT }] }).1
      = mk_err_response rcodeFORMERR := by
  have hloop : parseLoop rest [] none none = .error .missingQnameOrEr := by
    apply parseLoop_exhaust rest [] none none hrest
    · intro y hy
      refine hwire.1 y ?_
      simp only [optList, List.nil_append] at hy
      simp [hy]
    · have h2 := hwire.2
      simp only [optList, List.nil_append, nameLen_cons, nameLen_nil] at h2 ⊢
      omega
  have hparse : parse_qname (a :: b :: rest) = .error .missingQnameOrEr := by
    simp [parse_qname, hloop]
  refine ⟨hparse, ?_⟩
  rw [process_request_parse_err _ _ hparse]

/-- Witness for C7 amended: `a.b.c.d.e.` with no `_er` terminator. -/
theorem C7_missing_terminator_witness :
    parse_qname ([97] :: [98] :: [[99], [100], [101], []]) = .error .missingQnameOrEr ∧
    (process_request { questions :=
        [{ qname := [97] :: [98] :: [[99], [100], [101], []], qtype := rtypeTXT }] }).1
      = mk_err_response rcodeFORMERR :=
  C7_missing_terminator [97] [98] [[99], [100], [101], []] (by decide) (by decide)

/-- **C8.** A request on which decoding succeeds is answered NOERROR
with exactly one TXT record at the queried name, class IN, TTL 86400
seconds, and rdata the single character-string `"Report received"`. -/
theorem C8_success_response (req : DnsRequest) (q : Question) (qt ec : Nat)
    (nm : List (List Nat))
    (hq : sole_question req = some q) (ht : q.qtype = rtypeTXT)
    (h6 : 6 ≤ q.qname.length) (hp : parse_qname q.qname = .ok (qt, ec, nm)) :
    (process_request req).1 =
      { rcode := rcodeNOERROR,
        answers := [{ rname := q.qname, rclass := classIN, ttl := 86400,
                      rtype := rtypeTXT, rdata := [reportReceived] }] } := by
  simp [process_request, hq, ht, h6, hp, mk_success_response]

/-- Witness for C8 at `_er.1.com.23._er.a.`. -/
theorem C8_success_response_witness :
    (process_request { questions := [{ qname := goodQname, qtype := rtypeTXT }] }).1 =
      { rcode := rcodeNOERROR,
        answers := [{ rname := goodQname, rclass := classIN, ttl := 86400,
                      rtype := rtypeTXT, rdata := [reportReceived] }] } :=
  C8_success_response { questions := [{ qname := goodQname, qtype := rtypeTXT }] }
    { qname := goodQname, qtype := rtypeTXT } 1 23 [[99, 111, 109]]
    rfl rfl (by decide) (by decide)

/-- **C9.** The callback is invoked at most once per request; it is
invoked exactly when the response is NOERROR; and any invocation carries
the decoded qtype, error code and original name of the sole question. -/
theorem C9_callback_iff (req : DnsRequest) :
    (callbackEvents (process_request req).2).length ≤ 1 ∧
    ((process_request req).1.rcode = rcodeNOERROR ↔
      (callbackEvents (process_request req).2).length = 1) ∧
    (∀ c ∈ callbackEvents (process_request req).2,
      ∃ q, sole_question req = some q ∧ parse_qname q.qname = .ok c) := by
  cases hq : sole_question req with
  | none =>
    simp [process_request, hq, callbackEvents, mk_err_response, rcodeNOERROR, rcodeFORMERR]
  | some q =>
    by_cases ht : q.qtype = rtypeTXT
    · by_cases h6 : 6 ≤ q.qname.length
      · cases hp : parse_qname q.qname with
        | error e =>
          simp [process_request, hq, ht, h6, hp, callbackEvents, mk_err_response,
            rcodeNOERROR, rcodeFORMERR]
        | ok t =>
          obtain ⟨qt, ec, nm⟩ := t
          refine ⟨?_, ?_, ?_⟩ <;>
            simp [process_request, hq, ht, h6, hp, callbackEvents, mk_success_response,
              rcodeNOERROR]
      · simp [process_request, hq, ht, h6, callbackEvents, mk_err_response,
          rcodeNOERROR, rcodeFORMERR]
    · simp [process_request, hq, ht, callbackEvents, mk_err_response,
        rcodeNOERROR, rcodeFORMERR]

/-- Witness for C9 at a successfully decoded request. -/
theorem C9_callback_iff_witness :
    (callbackEvents (process_request { questions :=
        [{ qname := goodQname, qtype := rtypeTXT }] }).2).length ≤ 1 ∧
    ((process_request { questions := [{ qname := goodQname, qtype := rtypeTXT }] }).1.rcode
        = rcodeNOERROR ↔
      (callbackEvents (process_request { questions :=
        [{ qname := goodQname, qtype := rtypeTXT }] }).2).length = 1) ∧
    (∀ c ∈ callbackEvents (process_request { questions :=
        [{ qname := goodQname, qtype := rtypeTXT }] }).2,
      ∃ q, sole_question { questions := [{ qname := goodQname, qtype := rtypeTXT }] }
          = some q ∧ parse_qname q.qname = .ok c) :=
  C9_callback_iff { questions := [{ qname := goodQname, qtype := rtypeTXT }] }

/-- **C10.** The leftmost label among those after the second that the
program's case-insensitive comparison equates with `"_er"` is the
terminator: decoding reads nothing beyond it (the result equals that of
the name truncated right after the terminator, whatever follows), and
every label of a successfully reconstructed original name comes from
strictly before the terminator. -/
theorem C10_terminator_cut (a b t : List Nat) (mid suffix : List (List Nat))
    (hmid : ∀ l ∈ mid, isErLabel l = false) (ht : isErLabel t = true) :
    parse_qname (a :: b :: (mid ++ t :: suffix)) =
      parse_qname (a :: b :: (mid ++ [t])) ∧
    (∀ qt ec nm, parse_qname (a :: b :: (mid ++ t :: suffix)) = .ok (qt, ec, nm) →
      ∀ l ∈ nm, l ∈ mid) := by
  have h1 := parseLoop_closed mid t suffix [] none none ht hmid (by simp)
  have h2 := parseLoop_closed mid t [] [] none none ht hmid (by simp)
  simp only [optList, List.nil_append] at h1 h2
  constructor
  · simp only [parse_qname]
    rw [h1, h2]
  · intro qt ec nm h
    simp only [parse_qname] at h
    rw [h1] at h
    cases happ : appendAll [] mid.dropLast with
    | none => rw [happ] at h; simp at h
    | some nb2 =>
      rw [happ] at h
      simp only [] at h
      cases hlastv : mid.getLast? with
      | none => rw [hlastv] at h; simp at h
      | some ecl =>
        rw [hlastv] at h
        simp only [] at h
        cases hqt : parseU16 b with
        | none => rw [hqt] at h; simp at h
        | some qv =>
          rw [hqt] at h
          simp only [] at h
          cases hecp : parseU16 ecl with
          | none => rw [hecp] at h; simp at h
          | some ev =>
            rw [hecp] at h
            simp only [Except.ok.injEq, Prod.mk.injEq] at h
            intro l hl
            rw [← h.2.2] at hl
            have hnb2 : nb2 = mid.dropLast := by
              have := appendAll_eq_of_ok mid.dropLast [] nb2 happ
              simpa using this
            rw [hnb2] at hl
            exact List.mem_of_mem_dropLast hl

/-- Witness for C10: the terminator is the case variant `_ER`
(bytes `[95, 69, 82]`), which the program's comparison honors. -/
theorem C10_terminator_cut_witness :
    parse_qname ([95, 101, 114] :: [49] ::
        ([[99, 111, 109], [50, 51]] ++ [95, 69, 82] :: [[97], []])) =
      parse_qname ([95, 101, 114] :: [49] :: ([[99, 111, 109], [50, 51]] ++ [[95, 69, 82]])) ∧
    (∀ qt ec nm, parse_qname ([95, 101, 114] :: [49] ::
        ([[99, 111, 109], [50, 51]] ++ [95, 69, 82] :: [[97], []])) = .ok (qt, ec, nm) →
      ∀ l ∈ nm, l ∈ [[99, 111, 109], [50, 51]]) :=
  C10_terminator_cut [95, 101, 114] [49] [95, 69, 82] [[99, 111, 109], [50, 51]] [[97], []]
    (by decide) (by decide)

end Erma
